import Mathlib

/-!
A shallow embedding of `src/hlapi.rs` (the value-marshaling and
error-unification layer of an Emacs dynamic-module bridge) together with
proofs about the claims of the specification.

Modelling conventions:
* Rust byte strings (`String`, `Vec<u8>`, `CString`, `&str`) are `List Nat`
  of byte values; `ascii` turns an ASCII Lean string literal into bytes.
* The opaque `EmacsVal` handle is modelled by an inductive describing what a
  faithful host stores behind the handle (plus a `nullVal` for null handles,
  which the source checks with `is_null`).
* The host dispatch table `EmacsEnv` is a structure of `Option` functions,
  mirroring the `Option<unsafe extern fn ...>` fields used by the source.
* Host side effects that the claims need to observe (the heap of boxed
  native objects, `fset` bindings, `message` output) live in a `Host` state
  record threaded explicitly through the functions that can touch it.
* Fallible Rust code returning `ConvResult<T> = Result<T, ConvErr>` becomes
  `Except ConvErr`.
* Machine integers: `i64`/`isize` become `Int`, `usize` becomes `Nat`.  No
  arithmetic that could overflow an `i64` is performed anywhere in the
  modelled code paths, so this is faithful.
-/

/-- Bytes of an ASCII string literal (every Rust string literal appearing in
`hlapi.rs` is ASCII). -/
def ascii (s : String) : List Nat := s.data.map Char.toNat

/-- Model of the opaque `EmacsVal` handle (`*mut emacs_value`): the content a
faithful host stores behind the handle.  `nullVal` is the null pointer, the
case the source tests with `is_null()`.  Function values record the
construction parameters passed to `make_function`; user pointers record the
raw address passed to `make_user_ptr`. -/
inductive EmacsVal where
  | nullVal
  | intVal (n : Int)
  | strVal (bytes : List Nat)
  | symVal (name : List Nat)
  | consVal (car cdr : EmacsVal)
  | funVal (min_arity max_arity : Int) (subr : Option Nat) (doc : List Nat)
  | userPtrVal (ptr : Nat)
  deriving DecidableEq

/-- Source `EmacsVal::is_null()` on the raw pointer. -/
def EmacsVal.is_null : EmacsVal → Bool
  | .nullVal => true
  | _ => false

/-- Model of `std::io::ErrorKind` (only a payload of `ConvErr::IoErr`,
never inspected by the code under verification; the platform-independent
kinds the spec names, plus an opaque rest). -/
inductive ErrorKind where
  | NotFound
  | PermissionDenied
  | OtherKind
  deriving DecidableEq

/-- Model of `std::num::ParseIntError` (payload of `ConvErr::ParseIntError`):
its `kind` field, `std::num::IntErrorKind`. -/
inductive IntErrorKind where
  | Empty
  | InvalidDigit
  | PosOverflow
  | NegOverflow
  deriving DecidableEq

/-- The closed error taxonomy `ConvErr` of `hlapi.rs`, variant for variant.
`WrongEmacsValueType`, `IoErr`, `FromUtf8Error` and `FoundInteriorNulByte`
are struct variants in the source; their fields appear here in order. -/
inductive ConvErr where
  | CoreFnMissing (name : List Nat)
  | Nullptr (slot : List Nat)
  | FailedToFetchLength
  | FailedToCopy
  | InvalidArgCount (count : Nat)
  | Other (msg : List Nat)
  | WrongEmacsValueType (expected : List Nat) (got : Option EmacsVal)
  | IoErr (kind : ErrorKind) (msg : List Nat)
  | RegexSyntaxErr (msg : List Nat)
  | RegexTooLarge (size : Nat)
  | FromUtf8Error (valid_up_to : Nat) (bytes : List Nat)
  | Utf8Error (valid_up_to : Nat)
  | ParseIntError (kind : IntErrorKind)
  | FoundInteriorNulByte (pos : Nat) (bytes : Option (List Nat))
  | NotNulTerminated
  deriving DecidableEq

/-- Source `pub type ConvResult<T> = Result<T, ConvErr>;` -/
abbrev ConvResult (α : Type) : Type := Except ConvErr α

instance {ε α : Type} [DecidableEq ε] [DecidableEq α] : DecidableEq (Except ε α) :=
  fun a b =>
    match a, b with
    | .ok x, .ok y => if h : x = y then .isTrue (by rw [h]) else .isFalse (by simp [h])
    | .error x, .error y => if h : x = y then .isTrue (by rw [h]) else .isFalse (by simp [h])
    | .ok _, .error _ => .isFalse (by simp)
    | .error _, .ok _ => .isFalse (by simp)

/-- The host dispatch table (`EmacsEnv`): a struct of optional function
pointers, exactly the entries `hlapi.rs` reads.  `copy_string_contents`
models the two-phase protocol: the `Option (List Nat)` argument is the
destination buffer (`none` is the null length-query probe), the `Int` the
`*mut isize` length in-out parameter; the result is `none` when the host
reports failure (`false`), otherwise the updated length and the bytes the
host wrote into the destination. -/
structure EmacsEnv where
  make_integer : Option (Int → EmacsVal)
  extract_integer : Option (EmacsVal → Int)
  copy_string_contents :
    Option (EmacsVal → Option (List Nat) → Int → Option (Int × List Nat))
  make_string : Option (List Nat → Int → EmacsVal)
  make_function : Option (Int → Int → Option Nat → List Nat → Option Nat → EmacsVal)
  make_user_ptr : Option (Option Nat → Nat → EmacsVal)
  get_user_ptr : Option (EmacsVal → Nat)
  eq : Option (EmacsVal → EmacsVal → Bool)

/-- Host-visible mutable state threaded through the operations whose effects
the claims observe: the set of live boxed-native-object addresses (the
native heap as an allocation map), the host's function-cell bindings made by
`fset`, and the messages logged via `message`. -/
structure Host where
  heap : List Nat
  bindings : List (List Nat × EmacsVal)
  messages : List (List Nat)
  deriving DecidableEq

def host0 : Host := ⟨[], [], []⟩

/-- The Elisp symbol `nil`. -/
def elispNil : EmacsVal := .symVal (ascii "nil")

/-- The Elisp symbol `t`. -/
def elispT : EmacsVal := .symVal (ascii "t")

/-- Elisp `listp`: true on cons cells and on `nil`. -/
def listpB (v : EmacsVal) : Bool :=
  match v with
  | .consVal _ _ => true
  | v => v = elispNil

/-- Elisp `length` on a (proper) list value. -/
def elispLength : EmacsVal → Nat
  | .consVal _ cdr => 1 + elispLength cdr
  | _ => 0

/-- Elisp `nth`: the `n`-th element of a list, `nil` out of bounds. -/
def elispNth : Nat → EmacsVal → EmacsVal
  | 0, .consVal car _ => car
  | n + 1, .consVal _ cdr => elispNth n cdr
  | _, _ => elispNil

/-- Modelled from the spec: the crate-root helper `call` (a generic "call
named host function with argument list" entry point, §6 of the spec) is not
part of `src/`; only its call sites are.  This models a faithful host's
implementation of the named built-ins those call sites use (`intern`,
`list`, `cons`, `listp`, `length`, `nth`, `fset`, `message`), with `fset`
and `message` recording their effect in the `Host` state.  Any other name
returns `nil` and leaves the state unchanged. -/
def call (_env : EmacsEnv) (fname : List Nat) (args : List EmacsVal)
    (h : Host) : EmacsVal × Host :=
  if fname = ascii "intern" then
    match args with
    | [.strVal name] => (.symVal name, h)
    | _ => (elispNil, h)
  else if fname = ascii "list" then
    match args with
    | [] => (elispNil, h)
    | _ => (elispNil, h)
  else if fname = ascii "cons" then
    match args with
    | [a, b] => (.consVal a b, h)
    | _ => (elispNil, h)
  else if fname = ascii "listp" then
    match args with
    | [v] => (if listpB v then elispT else elispNil, h)
    | _ => (elispNil, h)
  else if fname = ascii "length" then
    match args with
    | [v] => (.intVal (elispLength v), h)
    | _ => (elispNil, h)
  else if fname = ascii "nth" then
    match args with
    | [.intVal i, l] => (elispNth i.toNat l, h)
    | _ => (elispNil, h)
  else if fname = ascii "fset" then
    match args with
    | [.symVal s, f] => (f, { h with bindings := (s, f) :: h.bindings })
    | _ => (elispNil, h)
  else if fname = ascii "message" then
    match args with
    | [.strVal m] => (.strVal m, { h with messages := m :: h.messages })
    | _ => (elispNil, h)
  else (elispNil, h)

/-- Source `pub fn eq(env, left, right) -> ConvResult<bool>` (hlapi.rs:395). -/
def eqFn (env : EmacsEnv) (left right : EmacsVal) : ConvResult Bool :=
  match env.eq with
  | none => .error (.CoreFnMissing (ascii "eq"))
  | some eq => .ok (eq left right)

/-- Model of `std::ffi::NulError` (the error of `CString::new`): the
position of the first nul byte and the owned byte vector
(`nul_position()` / `into_vec()`). -/
structure NulError where
  nul_position : Nat
  into_vec : List Nat
  deriving DecidableEq

/-- Source `impl From<NulError> for ConvErr` (hlapi.rs:81). -/
def ConvErr.fromNulError (err : NulError) : ConvErr :=
  .FoundInteriorNulByte err.nul_position (some err.into_vec)

/-- Position of the first nul (0) byte of a byte vector, if any. -/
def firstNul : List Nat → Option Nat
  | [] => none
  | b :: rest => if b = 0 then some 0 else (firstNul rest).map (· + 1)

/-- Model of `CString::new(bytes)`: fails with a `NulError` if the bytes
contain any nul byte, otherwise yields the (nul-free) content bytes of the
`CString` (its terminating nul being host-representation detail the source
never reads back). -/
def cstringNew (bytes : List Nat) : Except NulError (List Nat) :=
  match firstNul bytes with
  | some pos => .error ⟨pos, bytes⟩
  | none => .ok bytes

/-- Model of `libc::strlen` on the pointer of a `CString` whose content
bytes are `bytes` (memory holds `bytes ++ [0]`): the number of bytes before
the first nul. -/
def strlen (bytes : List Nat) : Nat := (bytes.takeWhile (fun b => b ≠ 0)).length

namespace elisp2native

/-- Source `strip_trailing_zero_bytes` (hlapi.rs:162): the loop pops trailing
0-bytes while the vector is nonempty and ends in 0 — i.e. it removes the
longest all-zero suffix. -/
def strip_trailing_zero_bytes (bytes : List Nat) : List Nat :=
  ((bytes.reverse.dropWhile (fun b => b = 0)).reverse)

/-- Source `elisp2native::pointer` (hlapi.rs:132).  The raw argument-vector
pointer is `none` when null, otherwise unbounded indexed memory
`Nat → EmacsVal` (out-of-bounds reads are the caller's, documented,
responsibility).  The extracted `*mut T` is its address; the `as *mut T`
reinterpretation is untyped. -/
def pointer (env : EmacsEnv) (args : Option (Nat → EmacsVal)) (index : Nat) :
    ConvResult Nat :=
  match args with
  | none => .error (.Nullptr (ascii "args"))
  | some a =>
    match env.get_user_ptr with
    | none => .error (.CoreFnMissing (ascii "get_user_ptr"))
    | some get_user_ptr => .ok (get_user_ptr (a index))

/-- Source `elisp2native::mut_ref` (hlapi.rs:145): `pointer(...).map(|raw| unsafe
{ &mut *raw })`.  The source dereferences without any null or aliasing
check, so the "reference" is modelled by the very address `pointer`
produced. -/
def mut_ref (env : EmacsEnv) (args : Option (Nat → EmacsVal)) (index : Nat) :
    ConvResult Nat :=
  (pointer env args index).map (fun raw => raw)

/-- Source `elisp2native::string_bytes` (hlapi.rs:170): the two-phase
length-then-copy protocol.  Phase 1 probes with a null destination; phase 2
copies into a fresh zeroed buffer of the reported length. -/
def string_bytes (env : EmacsEnv) (val : EmacsVal) : ConvResult (List Nat) :=
  match env.copy_string_contents with
  | none => .error (.CoreFnMissing (ascii "copy_string_contents"))
  | some copy_string_contents =>
    match copy_string_contents val none 0 with
    | none => .error .FailedToFetchLength
    | some (len, _) =>
      let bytes : List Nat := List.replicate len.toNat 0
      match copy_string_contents val (some bytes) len with
      | none => .error .FailedToCopy
      | some (_, written) => .ok written

/-- Longest prefix of `bytes` that is a sequence of complete, valid UTF-8
encoded scalar values (the `valid_up_to` of `std::str::Utf8Error`);
`utf8Valid` below is whole-vector validity. -/
def utf8ValidUpTo : List Nat → Nat
  | [] => 0
  | b :: rest =>
    if b < 0x80 then 1 + utf8ValidUpTo rest
    else if 0xC2 ≤ b ∧ b ≤ 0xDF then
      match rest with
      | c :: rest2 =>
        if 0x80 ≤ c ∧ c ≤ 0xBF then 2 + utf8ValidUpTo rest2 else 0
      | _ => 0
    else if 0xE0 ≤ b ∧ b ≤ 0xEF then
      match rest with
      | c :: d :: rest2 =>
        let loC : Nat := if b = 0xE0 then 0xA0 else 0x80
        let hiC : Nat := if b = 0xED then 0x9F else 0xBF
        if (loC ≤ c ∧ c ≤ hiC) ∧ (0x80 ≤ d ∧ d ≤ 0xBF) then
          3 + utf8ValidUpTo rest2
        else 0
      | _ => 0
    else if 0xF0 ≤ b ∧ b ≤ 0xF4 then
      match rest with
      | c :: d :: e :: rest2 =>
        let loC : Nat := if b = 0xF0 then 0x90 else 0x80
        let hiC : Nat := if b = 0xF4 then 0x8F else 0xBF
        if (loC ≤ c ∧ c ≤ hiC) ∧ (0x80 ≤ d ∧ d ≤ 0xBF) ∧
           (0x80 ≤ e ∧ e ≤ 0xBF) then
          4 + utf8ValidUpTo rest2
        else 0
      | _ => 0
    else 0

/-- UTF-8 validity of a whole byte vector. -/
def utf8Valid (bytes : List Nat) : Bool := utf8ValidUpTo bytes = bytes.length

/-- Model of `String::from_utf8(bytes)`: the bytes back when valid UTF-8
(a Rust `String` is its UTF-8 bytes in this embedding), otherwise the
`FromUtf8Error` already routed through `impl From<FromUtf8Error> for
ConvErr` (hlapi.rs:56), which keeps `valid_up_to` and the bytes. -/
def stringFromUtf8 (bytes : List Nat) : ConvResult (List Nat) :=
  if utf8Valid bytes then .ok bytes
  else .error (.FromUtf8Error (utf8ValidUpTo bytes) bytes)

/-- Source `elisp2native::string` (hlapi.rs:150): fetch bytes, strip trailing
zero bytes, decode as UTF-8. -/
def string (env : EmacsEnv) (val : EmacsVal) : ConvResult (List Nat) :=
  match string_bytes env val with
  | .error e => .error e
  | .ok fetched =>
    let bytes := strip_trailing_zero_bytes fetched
    stringFromUtf8 bytes

/-- Source `elisp2native::cstring` (hlapi.rs:156): fetch bytes, strip trailing
zero bytes, then `CString::new` (whose `NulError` goes through
`From<NulError>`).  The result is the content bytes of the `CString`. -/
def cstring (env : EmacsEnv) (val : EmacsVal) : ConvResult (List Nat) :=
  match string_bytes env val with
  | .error e => .error e
  | .ok fetched =>
    let bytes := strip_trailing_zero_bytes fetched
    match cstringNew bytes with
    | .error e => .error (ConvErr.fromNulError e)
    | .ok cs => .ok cs

/-- Source `elisp2native::int_value` (hlapi.rs:199). -/
def int_value (env : EmacsEnv) (val : EmacsVal) : ConvResult Int :=
  if val.is_null then .error (.Nullptr (ascii "val"))
  else
    match env.extract_integer with
    | none => .error (.CoreFnMissing (ascii "extract_integer"))
    | some extract_int => .ok (extract_int val)

/-- Source `elisp2native::integer` (hlapi.rs:190). -/
def integer (env : EmacsEnv) (args : Option (Nat → EmacsVal)) (index : Nat) :
    ConvResult Int :=
  match args with
  | none => .error (.Nullptr (ascii "args"))
  | some a => int_value env (a index)

end elisp2native

namespace native2elisp

/-- Source `native2elisp::integer` (hlapi.rs:240). -/
def integer (env : EmacsEnv) (num : Int) : ConvResult EmacsVal :=
  match env.make_integer with
  | none => .error (.CoreFnMissing (ascii "make_integer"))
  | some make_integer => .ok (make_integer num)

/-- Source `native2elisp::string` (hlapi.rs:250): `CString::new` on the input
bytes (any nul byte, trailing included, fails through `From<NulError>`),
then `make_string` with the pointer and `libc::strlen` of the C string. -/
def string (env : EmacsEnv) (s : List Nat) : ConvResult EmacsVal :=
  match cstringNew s with
  | .error e => .error (ConvErr.fromNulError e)
  | .ok cs =>
    let len : Nat := strlen cs
    match env.make_string with
    | none => .error (.CoreFnMissing (ascii "make_string"))
    | some make_string => .ok (make_string cs len)

/-- Source `native2elisp::symbol` (hlapi.rs:265): make a string, `intern` it. -/
def symbol (env : EmacsEnv) (name : List Nat) (h : Host) :
    ConvResult EmacsVal × Host :=
  match string env name with
  | .error e => (.error e, h)
  | .ok sv =>
    let (v, h1) := call env (ascii "intern") [sv] h
    (.ok v, h1)

/-- Source `native2elisp::function` (hlapi.rs:269). -/
def function (env : EmacsEnv) (min_arity max_arity : Int)
    (fn : Option Nat) (documentation : List Nat) (data : Option Nat) :
    ConvResult EmacsVal :=
  match env.make_function with
  | none => .error (.CoreFnMissing (ascii "make_function"))
  | some make_fn => .ok (make_fn min_arity max_arity fn documentation data)

/-- Source `native2elisp::boxed` (hlapi.rs:285): `Box::into_raw(Box::new(value))`
allocates a fresh nonzero address on the native heap (this happens before
the `make_user_ptr` lookup, so a missing entry leaks the box, as in the
source), then hands address plus destructor to `make_user_ptr`. -/
def boxed {α : Type} (env : EmacsEnv) (_value : α) (dtor : Nat) (h : Host) :
    ConvResult EmacsVal × Host :=
  let p : Nat := h.heap.foldr max 0 + 1
  let h1 : Host := { h with heap := p :: h.heap }
  match env.make_user_ptr with
  | none => (.error (.CoreFnMissing (ascii "make_user_ptr")), h1)
  | some make_user_ptr => (.ok (make_user_ptr (some dtor) p), h1)

/-- The loop body of `native2elisp::string_list` (hlapi.rs:297): iterate
the (already reversed) entries, consing each converted string onto the
accumulated list. -/
def string_list_loop (env : EmacsEnv) :
    List (List Nat) → EmacsVal → Host → ConvResult EmacsVal × Host
  | [], acc, h => (.ok acc, h)
  | entry :: rest, acc, h =>
    match string env entry with
    | .error e => (.error e, h)
    | .ok sv =>
      let (acc1, h1) := call env (ascii "cons") [sv, acc] h
      string_list_loop env rest acc1 h1

/-- Source `native2elisp::string_list` (hlapi.rs:297): start from `(list)` and
fold the entries right-to-left with `cons`. -/
def string_list (env : EmacsEnv) (strings : List (List Nat)) (h : Host) :
    ConvResult EmacsVal × Host :=
  let (l0, h0) := call env (ascii "list") [] h
  string_list_loop env strings.reverse l0 h0

end native2elisp

namespace elisp2native

/-- The `for i in 0 .. length` loop of `elisp2native::list` (hlapi.rs:222),
given the list of loop indices: convert the index to an Elisp integer and
fetch the element with `nth`. -/
def list_loop (env : EmacsEnv) (arg : EmacsVal) :
    List Int → Host → ConvResult (List EmacsVal) × Host
  | [], h => (.ok [], h)
  | i :: rest, h =>
    match native2elisp.integer env i with
    | .error e => (.error e, h)
    | .ok index =>
      let (element, h1) := call env (ascii "nth") [index, arg] h
      match list_loop env arg rest h1 with
      | (.ok tl, h2) => (.ok (element :: tl), h2)
      | (.error e, h2) => (.error e, h2)

/-- Source `elisp2native::list` (hlapi.rs:210): `listp` host predicate compared to
`nil` via `eq`, then host-reported `length`, then per-element `nth`. -/
def list (env : EmacsEnv) (arg : EmacsVal) (h : Host) :
    ConvResult (List EmacsVal) × Host :=
  match native2elisp.symbol env (ascii "nil") h with
  | (.error e, h1) => (.error e, h1)
  | (.ok nilv, h1) =>
    let (is_list, h2) := call env (ascii "listp") [arg] h1
    match eqFn env is_list nilv with
    | .error e => (.error e, h2)
    | .ok true => (.error (.WrongEmacsValueType (ascii "list") (some arg)), h2)
    | .ok false =>
      let (lengthVal, h3) := call env (ascii "length") [arg] h2
      match int_value env lengthVal with
      | .error e => (.error e, h3)
      | .ok length =>
        list_loop env arg ((List.range length.toNat).map (Int.ofNat ·)) h3

end elisp2native

/-- Source `destruct` (hlapi.rs:15) as a transition on the native heap modelled as
an allocation map (the list of live addresses): a null argument returns
immediately leaving the heap unchanged; `drop(Box::from_raw(ptr))` frees a
live allocation; on a dead or foreign address `Box::from_raw` is undefined
behavior, modelled as `none` (a fault). -/
def destruct (arg : Nat) (heap : List Nat) : Option (List Nat) :=
  if arg = 0 then some heap
  else if arg ∈ heap then some (heap.erase arg) else none

/-- Source `message` (hlapi.rs:387): build an Elisp string and `call "message"`. -/
def message (env : EmacsEnv) (text : List Nat) (h : Host) :
    ConvResult EmacsVal × Host :=
  match native2elisp.string env text with
  | .error e => (.error e, h)
  | .ok sv =>
    let (v, h1) := call env (ascii "message") [sv] h
    (.ok v, h1)

/-- Source `is_nil` (hlapi.rs:405). -/
def is_nil (env : EmacsEnv) (value : EmacsVal) (h : Host) :
    ConvResult Bool × Host :=
  match native2elisp.symbol env (ascii "nil") h with
  | (.error e, h1) => (.error e, h1)
  | (.ok nilv, h1) => (eqFn env value nilv, h1)

/-- Source `register` (hlapi.rs:410).  `nargs_range : Range<usize>` is its two
fields `start`/`end`; the source builds the function value with
`min_arity = start as isize` and `max_arity = end as isize + 1`.  The
docstring goes through `CString::new` first (its `NulError` routed by
`From<NulError>`). -/
def register (env : EmacsEnv) (elisp_sym : List Nat) (native_sym : Nat)
    (nargs_start nargs_end : Nat) (docstring : List Nat) (h : Host) :
    ConvResult EmacsVal × Host :=
  match cstringNew docstring with
  | .error e => (.error (ConvErr.fromNulError e), h)
  | .ok doc =>
    match native2elisp.function env (nargs_start : Int) ((nargs_end : Int) + 1)
        (some native_sym) doc none with
    | .error e => (.error e, h)
    | .ok func =>
      match native2elisp.symbol env elisp_sym h with
      | (.error e, h1) => (.error e, h1)
      | (.ok elisp_symbol, h1) =>
        let (_, h2) := call env (ascii "fset") [elisp_symbol, func] h1
        match message env (ascii "Registered function " ++ elisp_sym) h2 with
        | (.error e, h3) => (.error e, h3)
        | (.ok _, h3) => native2elisp.symbol env (ascii "t") h3

/-- Decimal digits of a `usize`/`u8` as bytes (Rust `Display`/`Debug` of an
unsigned integer). -/
def natStr (n : Nat) : List Nat := ascii (Nat.repr n)

/-- Lowercase hexadecimal digits of a `Nat`, as bytes. -/
def hexStr (n : Nat) : List Nat := (Nat.toDigits 16 n).map Char.toNat

/-- Rust `Debug` escaping of one byte of string content (`char::escape_debug`
restricted to the ASCII content relevant here): tab, newline, carriage
return, quote and backslash get a backslash escape, printable ASCII stands
for itself, anything else is rendered `\u`, brace, lowercase hex, brace. -/
def escapeByte (b : Nat) : List Nat :=
  if b = 34 then [92, 34]
  else if b = 92 then [92, 92]
  else if b = 9 then [92, 116]
  else if b = 10 then [92, 110]
  else if b = 13 then [92, 114]
  else if 32 ≤ b ∧ b ≤ 126 then [b]
  else ascii "\\u\x7b" ++ hexStr b ++ ascii "\x7d"

/-- Rust `Debug` of a `String`: quoted, content escaped. -/
def strDebug (s : List Nat) : List Nat :=
  ascii "\"" ++ (s.map escapeByte).flatten ++ ascii "\""

/-- Rust `Debug` of a `Vec<u8>`. -/
def vecDebug (l : List Nat) : List Nat :=
  ascii "[" ++ List.intercalate (ascii ", ") (l.map natStr) ++ ascii "]"

/-- Rust `Debug` of an `Option<Vec<u8>>`. -/
def optVecDebug : Option (List Nat) → List Nat
  | none => ascii "None"
  | some l => ascii "Some(" ++ vecDebug l ++ ascii ")"

/-- Rust `Debug` of an `EmacsVal` (`*mut emacs_value`): the pointer is
printed as `0x` plus the address in lowercase hex; `addrOf` supplies the
host-chosen address of the handle, which the model cannot know. -/
def valDebug (addrOf : EmacsVal → Nat) (v : EmacsVal) : List Nat :=
  ascii "0x" ++ hexStr (addrOf v)

/-- Rust `Debug` of an `Option<EmacsVal>`. -/
def optValDebug (addrOf : EmacsVal → Nat) : Option EmacsVal → List Nat
  | none => ascii "None"
  | some v => ascii "Some(" ++ valDebug addrOf v ++ ascii ")"

/-- Rust `Debug` of an `io::ErrorKind`. -/
def errorKindDebug : ErrorKind → List Nat
  | .NotFound => ascii "NotFound"
  | .PermissionDenied => ascii "PermissionDenied"
  | .OtherKind => ascii "Other"

/-- Rust `Debug` of an `IntErrorKind`. -/
def intErrorKindDebug : IntErrorKind → List Nat
  | .Empty => ascii "Empty"
  | .InvalidDigit => ascii "InvalidDigit"
  | .PosOverflow => ascii "PosOverflow"
  | .NegOverflow => ascii "NegOverflow"

/-- The derived `Debug` form of a `ConvErr` (`{:?}`, non-alternate): tuple
variants print `Name(payload)`, struct variants `Name`, brace, fields,
brace, exactly as `#[derive(Debug)]` renders them. -/
def convErrDebug (addrOf : EmacsVal → Nat) : ConvErr → List Nat
  | .CoreFnMissing s => ascii "CoreFnMissing(" ++ strDebug s ++ ascii ")"
  | .Nullptr s => ascii "Nullptr(" ++ strDebug s ++ ascii ")"
  | .FailedToFetchLength => ascii "FailedToFetchLength"
  | .FailedToCopy => ascii "FailedToCopy"
  | .InvalidArgCount n => ascii "InvalidArgCount(" ++ natStr n ++ ascii ")"
  | .Other s => ascii "Other(" ++ strDebug s ++ ascii ")"
  | .WrongEmacsValueType e g =>
    ascii "WrongEmacsValueType \x7b expected: " ++ strDebug e ++
      ascii ", got: " ++ optValDebug addrOf g ++ ascii " \x7d"
  | .IoErr k m =>
    ascii "IoErr \x7b kind: " ++ errorKindDebug k ++ ascii ", msg: " ++
      strDebug m ++ ascii " \x7d"
  | .RegexSyntaxErr s => ascii "RegexSyntaxErr(" ++ strDebug s ++ ascii ")"
  | .RegexTooLarge n => ascii "RegexTooLarge(" ++ natStr n ++ ascii ")"
  | .FromUtf8Error v b =>
    ascii "FromUtf8Error \x7b valid_up_to: " ++ natStr v ++
      ascii ", bytes: " ++ vecDebug b ++ ascii " \x7d"
  | .Utf8Error v => ascii "Utf8Error \x7b valid_up_to: " ++ natStr v ++ ascii " \x7d"
  | .ParseIntError k =>
    ascii "ParseIntError(ParseIntError \x7b kind: " ++ intErrorKindDebug k ++
      ascii " \x7d)"
  | .FoundInteriorNulByte p b =>
    ascii "FoundInteriorNulByte \x7b pos: " ++ natStr p ++ ascii ", bytes: " ++
      optVecDebug b ++ ascii " \x7d"
  | .NotNulTerminated => ascii "NotNulTerminated"

/-- The result of one ABI call of a wrapped subr: either the single
returned `EmacsVal`, or a fault (a panic crossing the boundary — in the
source, the `.expect("Error string creation failed")` when even the
diagnostic string cannot be built). -/
inductive AbiResult where
  | value (v : EmacsVal)
  | fault
  deriving DecidableEq

/-- The type of the inner `fun` a subr body defines inside `emacs_subrs!`:
`(env, nargs, args, data, tag) -> ConvResult<EmacsVal>`, with `Host`
threaded for its effects. -/
abbrev SubrBody :=
  EmacsEnv → Int → Option (Nat → EmacsVal) → Option Nat → List Nat →
    Host → ConvResult EmacsVal × Host

/-- Source `format!("[{}]", stringify!($name))` — the per-function tag. -/
def tagOf (name : List Nat) : List Nat := ascii "[" ++ name ++ ascii "]"

/-- Source `format!("{} ConvErr::{:?}", tag, conv_err)` — the diagnostic text. -/
def diagMsg (addrOf : EmacsVal → Nat) (tag : List Nat) (e : ConvErr) :
    List Nat :=
  tag ++ ascii " ConvErr::" ++ convErrDebug addrOf e

/-- The boundary trampoline generated by the `emacs_subrs!` macro
(hlapi.rs:316): call the inner `fun`; return its value on success; on a
`ConvErr`, build the diagnostic text and return it as an Elisp string,
panicking (`.expect`) — a fault across the ABI — only if even that string
conversion fails. -/
def emacs_subr (addrOf : EmacsVal → Nat) (name : List Nat) (body : SubrBody)
    (env : EmacsEnv) (nargs : Int) (args : Option (Nat → EmacsVal))
    (data : Option Nat) (h : Host) : AbiResult × Host :=
  let tag := tagOf name
  match body env nargs args data tag h with
  | (.ok value, h1) => (.value value, h1)
  | (.error conv_err, h1) =>
    let msg := diagMsg addrOf tag conv_err
    match native2elisp.string env msg with
    | .ok v => (.value v, h1)
    | .error _ => (.fault, h1)

/-- Model of `std::ffi::FromBytesWithNulError` (the error type of
`CStr::from_bytes_with_nul`): its kind is either an interior nul at a
position, or a missing terminator. -/
inductive FromBytesWithNulErrorKind where
  | InteriorNul (pos : Nat)
  | NotNulTerminated
  deriving DecidableEq

/-- Source `format!("{:?}", err)` for a `FromBytesWithNulError`: the derived
`Debug` of the struct wrapping the kind, e.g.
`FromBytesWithNulError` brace `kind: InteriorNul(3)` brace — note there is
no `Err(...)` wrapper, since the formatted value is the error itself, not a
`Result`. -/
def fbwnDebug : FromBytesWithNulErrorKind → List Nat
  | .InteriorNul p =>
    ascii "FromBytesWithNulError \x7b kind: InteriorNul(" ++ natStr p ++
      ascii ") \x7d"
  | .NotNulTerminated =>
    ascii "FromBytesWithNulError \x7b kind: NotNulTerminated \x7d"

def isDigitByte (b : Nat) : Bool := decide (48 ≤ b ∧ b ≤ 57)

/-- Model of `str::parse::<usize>` on a capture (overflow ignored: the
inputs reaching it here are never large): empty input and non-digit input
fail with the corresponding `IntErrorKind`. -/
def parseUsize (s : List Nat) : Except IntErrorKind Nat :=
  if s = [] then .error .Empty
  else if s.all isDigitByte then
    .ok (s.foldl (fun acc b => acc * 10 + (b - 48)) 0)
  else .error .InvalidDigit

/-- The literal text the regex
`r"Err(FromBytesWithNulError { kind: InteriorNul(\d+) })"` actually
requires before the digits: in a regex the parentheses are capture-group
metacharacters, not literal text, so the pattern matches `Err` directly
followed by `FromBytesWithNulError`, brace, `kind: InteriorNul`, then the
digits of group 2 and a space-brace tail — with no literal parentheses
anywhere. -/
def reFBWNlit : List Nat := ascii "ErrFromBytesWithNulError \x7b kind: InteriorNul"

def reFBWNtail : List Nat := ascii " \x7d"

/-- Does the regex match starting exactly at the head of `s`?  On success,
returns (capture group 1, capture group 2): group 1 spans from after the
literal `Err` to the end of the match, group 2 is the digit run.  `\d+` is
greedy; a shorter digit run cannot make the following ` `-brace tail match
(the next byte would still be a digit), so maximal-run-then-check is exact
regex semantics here. -/
def reMatchAt (s : List Nat) : Option (List Nat × List Nat) :=
  if reFBWNlit.isPrefixOf s then
    let rest := s.drop reFBWNlit.length
    let ds := rest.takeWhile isDigitByte
    if ds ≠ [] ∧ reFBWNtail.isPrefixOf (rest.drop ds.length) then
      some (reFBWNlit.drop 3 ++ ds ++ reFBWNtail, ds)
    else none
  else none

/-- Leftmost match of the regex anywhere in `s` (the first element
`captures_iter` would yield — the source returns from the loop on the
first iteration). -/
def reSearch : List Nat → Option (List Nat × List Nat)
  | [] => reMatchAt []
  | b :: t =>
    match reMatchAt (b :: t) with
    | some r => some r
    | none => reSearch t

/-- Source `impl From<FromBytesWithNulError> for ConvErr` (hlapi.rs:90), exactly
as written: format the error with `{:?}`, compare the whole string against
a literal with an `Err(...)` wrapper, then run the regex and parse capture
1 (the full group, not the digit group 2) as an integer, falling back to
`ConvErr::Other` with the formatted string. -/
def ConvErr.fromFromBytesWithNulError (err : FromBytesWithNulErrorKind) :
    ConvErr :=
  let err_string := fbwnDebug err
  if err_string = ascii "Err(FromBytesWithNulError \x7b kind: NotNulTerminated \x7d)"
  then .NotNulTerminated
  else
    match reSearch err_string with
    | some (cap1, _cap2) =>
      match parseUsize cap1 with
      | .ok pos => .FoundInteriorNulByte pos none
      | .error parse_int_err => .ParseIntError parse_int_err
    | none => .Other err_string

/-- The faithful-host instantiation of the dispatch table, modelling the
assumptions the round-trip claims state ("the host's primitives are
present and the host stores the value faithfully").  `make_integer` /
`extract_integer` store and return the very integer; `make_string` stores
the first `len` bytes it is passed; `copy_string_contents` reports
`stored-length + 1` on the null-probe phase and fills the buffer with the
stored bytes plus the single C terminator byte (the spec's "length-prefixed
but C-string-oriented underneath" protocol); `make_function` and
`make_user_ptr` record their construction parameters behind the handle;
`eq` is host value identity, which on interned symbols and stored contents
this model renders as structural equality. -/
def faithfulEnv : EmacsEnv where
  make_integer := some (fun n => .intVal n)
  extract_integer := some (fun v =>
    match v with
    | .intVal n => n
    | _ => 0)
  copy_string_contents := some (fun val dest _len =>
    match val with
    | .strVal b =>
      match dest with
      | none => some (((b.length : Int) + 1), [])
      | some _buf => some (((b.length : Int) + 1), b ++ [0])
    | _ => none)
  make_string := some (fun bytes len => .strVal (bytes.take len.toNat))
  make_function := some (fun mn mx f doc _data => .funVal mn mx f doc)
  make_user_ptr := some (fun _dtor p => .userPtrVal p)
  get_user_ptr := some (fun v =>
    match v with
    | .userPtrVal p => p
    | _ => 0)
  eq := some (fun a b => decide (a = b))

/-- Specification-side description of the Elisp list a faithful host builds
from repeated `cons` onto `nil`: used to relate `string_list` and `list`. -/
def mkElispList (vs : List EmacsVal) : EmacsVal := vs.foldr .consVal elispNil

/-- The faithful host with the dispatch table's `extract_integer` entry
absent (the missing-primitive scenario of the spec). -/
def faithfulEnvNoExtract : EmacsEnv := { faithfulEnv with extract_integer := none }

theorem firstNul_eq_none {l : List Nat} (h : 0 ∉ l) : firstNul l = none := by
  induction l with
  | nil => rfl
  | cons b t ih =>
    simp only [List.mem_cons, not_or] at h
    simp [firstNul, Ne.symm h.1, ih h.2]

theorem firstNul_append {pre rest : List Nat} (h : 0 ∉ pre) :
    firstNul (pre ++ 0 :: rest) = some pre.length := by
  induction pre with
  | nil => simp [firstNul]
  | cons b t ih =>
    simp only [List.mem_cons, not_or] at h
    simp [firstNul, Ne.symm h.1, ih h.2]

theorem cstringNew_ok {l : List Nat} (h : 0 ∉ l) : cstringNew l = .ok l := by
  simp [cstringNew, firstNul_eq_none h]

theorem takeWhile_ne_zero_eq {l : List Nat} (h : 0 ∉ l) :
    l.takeWhile (fun b => b ≠ 0) = l := by
  induction l with
  | nil => rfl
  | cons b t ih =>
    simp only [List.mem_cons, not_or] at h
    simp [List.takeWhile_cons, Ne.symm h.1]
    intro x hx hx0
    exact h.2 (hx0 ▸ hx)

theorem strlen_eq {l : List Nat} (h : 0 ∉ l) : strlen l = l.length := by
  unfold strlen
  rw [takeWhile_ne_zero_eq h]

theorem dropWhile_append_all {p : Nat → Bool} {l1 l2 : List Nat}
    (h : ∀ a ∈ l1, p a) : (l1 ++ l2).dropWhile p = l2.dropWhile p := by
  induction l1 with
  | nil => rfl
  | cons b t ih =>
    simp only [List.cons_append, List.dropWhile_cons, h b (by simp), if_true]
    exact ih (fun a ha => h a (by simp [ha]))

theorem dropWhile_append_ex {p : Nat → Bool} {l1 l2 : List Nat}
    (h : ∃ a ∈ l1, ¬ p a) : (l1 ++ l2).dropWhile p = l1.dropWhile p ++ l2 := by
  induction l1 with
  | nil => simp at h
  | cons b t ih =>
    by_cases hb : p b
    · obtain ⟨a, ha, hpa⟩ := h
      rcases List.mem_cons.mp ha with rfl | hat
      · exact absurd hb hpa
      · simp only [List.cons_append, List.dropWhile_cons, hb, if_true]
        exact ih ⟨a, hat, hpa⟩
    · simp [List.dropWhile_cons, hb]

theorem dropWhile_eq_self_of {p : Nat → Bool} {l : List Nat}
    (h : ∀ a ∈ l, ¬ p a) : l.dropWhile p = l := by
  cases l with
  | nil => rfl
  | cons b t => simp [List.dropWhile_cons, h b (by simp)]

theorem strip_append_replicate (l : List Nat) (k : Nat) :
    elisp2native.strip_trailing_zero_bytes (l ++ List.replicate k 0) =
      elisp2native.strip_trailing_zero_bytes l := by
  unfold elisp2native.strip_trailing_zero_bytes
  rw [List.reverse_append, List.reverse_replicate,
    dropWhile_append_all (by intro a ha; simp only [List.mem_replicate] at ha; simp [ha.2])]

theorem strip_of_no_nul {l : List Nat} (h : 0 ∉ l) :
    elisp2native.strip_trailing_zero_bytes l = l := by
  unfold elisp2native.strip_trailing_zero_bytes
  rw [dropWhile_eq_self_of, List.reverse_reverse]
  intro a ha
  simp only [List.mem_reverse] at ha
  simp only [decide_eq_true_eq]
  rintro rfl
  exact h ha

theorem strip_append_ex {l1 l2 : List Nat} (h : ∃ x ∈ l2, x ≠ 0) :
    elisp2native.strip_trailing_zero_bytes (l1 ++ l2) =
      l1 ++ elisp2native.strip_trailing_zero_bytes l2 := by
  unfold elisp2native.strip_trailing_zero_bytes
  obtain ⟨x, hx, hxe⟩ := h
  rw [List.reverse_append, dropWhile_append_ex ⟨x, by simp [hx], by simp [hxe]⟩,
    List.reverse_append, List.reverse_reverse]

theorem call_intern (env : EmacsEnv) (name : List Nat) (h : Host) :
    call env (ascii "intern") [.strVal name] h = (.symVal name, h) := rfl

theorem call_list_empty (env : EmacsEnv) (h : Host) :
    call env (ascii "list") [] h = (elispNil, h) := rfl

theorem call_cons (env : EmacsEnv) (a b : EmacsVal) (h : Host) :
    call env (ascii "cons") [a, b] h = (.consVal a b, h) := rfl

theorem call_listp (env : EmacsEnv) (v : EmacsVal) (h : Host) :
    call env (ascii "listp") [v] h =
      (if listpB v then elispT else elispNil, h) := rfl

theorem call_length (env : EmacsEnv) (v : EmacsVal) (h : Host) :
    call env (ascii "length") [v] h = (.intVal (elispLength v), h) := rfl

theorem call_nth (env : EmacsEnv) (i : Int) (l : EmacsVal) (h : Host) :
    call env (ascii "nth") [.intVal i, l] h = (elispNth i.toNat l, h) := rfl

theorem call_fset (env : EmacsEnv) (s : List Nat) (f : EmacsVal) (h : Host) :
    call env (ascii "fset") [.symVal s, f] h =
      (f, { h with bindings := (s, f) :: h.bindings }) := rfl

theorem call_message (env : EmacsEnv) (m : List Nat) (h : Host) :
    call env (ascii "message") [.strVal m] h =
      (.strVal m, { h with messages := m :: h.messages }) := rfl

theorem string_bytes_faithful (b : List Nat) :
    elisp2native.string_bytes faithfulEnv (.strVal b) = .ok (b ++ [0]) := rfl

theorem nat2el_integer_faithful (n : Int) :
    native2elisp.integer faithfulEnv n = .ok (.intVal n) := rfl

theorem int_value_intVal (n : Int) :
    elisp2native.int_value faithfulEnv (.intVal n) = .ok n := rfl

theorem eqFn_faithful (a b : EmacsVal) :
    eqFn faithfulEnv a b = .ok (decide (a = b)) := rfl

theorem function_faithful (mn mx : Int) (f : Option Nat) (doc : List Nat)
    (data : Option Nat) :
    native2elisp.function faithfulEnv mn mx f doc data =
      .ok (.funVal mn mx f doc) := rfl

theorem nat2el_string_ok {s : List Nat} (h : 0 ∉ s) :
    native2elisp.string faithfulEnv s = .ok (.strVal s) := by
  unfold native2elisp.string
  rw [cstringNew_ok h]
  simp [faithfulEnv, strlen_eq h]

theorem e2n_string_ok {s : List Nat} (hn : 0 ∉ s)
    (hv : elisp2native.utf8Valid s = true) :
    elisp2native.string faithfulEnv (.strVal s) = .ok s := by
  have hs : elisp2native.strip_trailing_zero_bytes (s ++ [0]) = s := by
    rw [show ([0] : List Nat) = List.replicate 1 0 from rfl,
      strip_append_replicate, strip_of_no_nul hn]
  unfold elisp2native.string
  rw [string_bytes_faithful]
  simp only [hs]
  simp [elisp2native.stringFromUtf8, hv]

theorem symbol_ok {name : List Nat} (hn : 0 ∉ name) (h : Host) :
    native2elisp.symbol faithfulEnv name h = (.ok (.symVal name), h) := by
  unfold native2elisp.symbol
  rw [nat2el_string_ok hn]
  rfl

theorem message_ok {t : List Nat} (hn : 0 ∉ t) (h : Host) :
    message faithfulEnv t h =
      (.ok (.strVal t), { h with messages := t :: h.messages }) := by
  unfold message
  rw [nat2el_string_ok hn]
  rfl

theorem listpB_mk (vs : List EmacsVal) : listpB (mkElispList vs) = true := by
  cases vs <;> rfl

theorem elispLength_mk (vs : List EmacsVal) :
    elispLength (mkElispList vs) = vs.length := by
  induction vs with
  | nil => rfl
  | cons v t ih =>
    simp only [mkElispList, List.foldr_cons] at ih ⊢
    simp [elispLength, ih]
    omega

theorem elispNth_mk (vs : List EmacsVal) :
    ∀ i, elispNth i (mkElispList vs) = vs.getD i elispNil := by
  induction vs with
  | nil => intro i; cases i <;> rfl
  | cons v t ih =>
    intro i
    cases i with
    | zero => rfl
    | succ n =>
      simpa only [mkElispList, List.foldr_cons, elispNth, List.getD_cons_succ]
        using ih n

theorem map_range_getD (vs : List EmacsVal) :
    (List.range vs.length).map (fun i => vs.getD i elispNil) = vs := by
  induction vs with
  | nil => rfl
  | cons v t ih =>
    simp only [List.length_cons, List.range_succ_eq_map, List.map_cons,
      List.map_map, List.getD_cons_zero]
    have hf : ((fun i => (v :: t).getD i elispNil) ∘ Nat.succ) =
        fun i => t.getD i elispNil :=
      funext fun i => by simp [Function.comp, List.getD_cons_succ]
    rw [hf, ih]

theorem string_list_loop_ok (l : List (List Nat)) :
    ∀ (acc : EmacsVal) (h : Host), (∀ s ∈ l, 0 ∉ s) →
      native2elisp.string_list_loop faithfulEnv l acc h =
        (.ok (l.foldl (fun acc s => EmacsVal.consVal (.strVal s) acc) acc), h) := by
  induction l with
  | nil => intro acc h _; rfl
  | cons s t ih =>
    intro acc h hl
    have hs : 0 ∉ s := hl s (by simp)
    have ht : ∀ x ∈ t, 0 ∉ x := fun x hx => hl x (by simp [hx])
    simp only [native2elisp.string_list_loop, nat2el_string_ok hs, call_cons,
      List.foldl_cons]
    exact ih _ _ ht

theorem string_list_ok (ss : List (List Nat)) (h : Host)
    (hss : ∀ s ∈ ss, 0 ∉ s) :
    native2elisp.string_list faithfulEnv ss h =
      (.ok (mkElispList (ss.map EmacsVal.strVal)), h) := by
  unfold native2elisp.string_list
  rw [call_list_empty]
  show native2elisp.string_list_loop faithfulEnv ss.reverse elispNil h = _
  rw [string_list_loop_ok _ _ _ (fun s hs => hss s (List.mem_reverse.mp hs))]
  simp [mkElispList, List.foldl_reverse, List.foldr_map]

theorem list_loop_ok (arg : EmacsVal) (idxs : List Int) (h : Host) :
    elisp2native.list_loop faithfulEnv arg idxs h =
      (.ok (idxs.map (fun i => elispNth i.toNat arg)), h) := by
  induction idxs with
  | nil => rfl
  | cons i t ih =>
    simp only [elisp2native.list_loop, nat2el_integer_faithful, call_nth, ih,
      List.map_cons]

theorem list_ok (vs : List EmacsVal) (h : Host) :
    elisp2native.list faithfulEnv (mkElispList vs) h = (.ok vs, h) := by
  unfold elisp2native.list
  rw [symbol_ok (by decide) h]
  simp only [call_listp, listpB_mk, if_true, eqFn_faithful]
  rw [show (decide (elispT = EmacsVal.symVal (ascii "nil"))) = false by decide]
  simp only [call_length, elispLength_mk, int_value_intVal]
  rw [list_loop_ok]
  rw [show (((vs.length : Int)).toNat) = vs.length from rfl]
  rw [List.map_map]
  rw [show ((fun i => elispNth i.toNat (mkElispList vs)) ∘ fun x : Nat => Int.ofNat x) =
      fun n : Nat => vs.getD n elispNil from funext fun n => by
        show elispNth (Int.ofNat n).toNat (mkElispList vs) = _
        rw [show (Int.ofNat n).toNat = n from rfl, elispNth_mk]]
  rw [map_range_getD]

theorem le_foldr_max (l : List Nat) : ∀ x ∈ l, x ≤ l.foldr max 0 := by
  induction l with
  | nil => intro x hx; cases hx
  | cons b t ih =>
    intro x hx
    rcases List.mem_cons.mp hx with rfl | hxt
    · exact le_max_left _ _
    · exact le_trans (ih x hxt) (le_max_right _ _)

/-- C2: for every native `i64` integer `n`, reading back the host value
constructed from it returns `n`: with the faithful host (`make_integer`
and `extract_integer` present, value stored faithfully),
`int_value (make_integer n) = Ok(n)`. -/
theorem c2_integer_roundtrip (n : Int) :
    (native2elisp.integer faithfulEnv n).bind
      (fun v => elisp2native.int_value faithfulEnv v) = .ok n := rfl

/-- C3: for every native text `s` (valid UTF-8 bytes) with no embedded nul
byte, `elisp2native::string (native2elisp::string s) = Ok(s)` under the
faithful host: the byte length passed to `make_string` is `s.length`
(`strlen` of the nul-free C string) and the read strips exactly the
host-added terminator byte. -/
theorem c3_text_roundtrip (s : List Nat) (hnul : 0 ∉ s)
    (hutf8 : elisp2native.utf8Valid s = true) :
    (native2elisp.string faithfulEnv s).bind
      (fun v => elisp2native.string faithfulEnv v) = .ok s := by
  rw [nat2el_string_ok hnul]
  show elisp2native.string faithfulEnv (.strVal s) = .ok s
  exact e2n_string_ok hnul hutf8

theorem c3_text_roundtrip_witness :
    (native2elisp.string faithfulEnv (ascii "ab")).bind
      (fun v => elisp2native.string faithfulEnv v) = .ok (ascii "ab") :=
  c3_text_roundtrip (ascii "ab") (by decide) (by decide)

/-- C9: for every ordered sequence of `k` strings (`k` restricted to
0, 1, 5 as the claim states), the Elisp list built by `string_list`
(right-to-left `cons` folding onto `(list)`) read back with
`elisp2native::list` (listp check, host length, per-index `nth`) yields
the same `k` elements in the same order. -/
theorem c9_list_roundtrip (ss : List (List Nat)) (h : Host)
    (_hk : ss.length = 0 ∨ ss.length = 1 ∨ ss.length = 5)
    (hss : ∀ s ∈ ss, 0 ∉ s) :
    ∃ v, native2elisp.string_list faithfulEnv ss h = (.ok v, h) ∧
      elisp2native.list faithfulEnv v h = (.ok (ss.map EmacsVal.strVal), h) :=
  ⟨mkElispList (ss.map EmacsVal.strVal), string_list_ok ss h hss, list_ok _ h⟩

theorem c9_list_roundtrip_witness :
    ∃ v, native2elisp.string_list faithfulEnv
        [ascii "a", ascii "b", ascii "c", ascii "d", ascii "e"] host0 = (.ok v, host0) ∧
      elisp2native.list faithfulEnv v host0 =
        (.ok ([ascii "a", ascii "b", ascii "c", ascii "d", ascii "e"].map EmacsVal.strVal),
          host0) :=
  c9_list_roundtrip [ascii "a", ascii "b", ascii "c", ascii "d", ascii "e"] host0
    (by decide) (by decide)

/-- C8: `int_value` fails `Nullptr("val")` on a null value; on a non-null
value with the dispatch table's `extract_integer` absent it fails
`CoreFnMissing("extract_integer")` (no fault); `integer` fails
`Nullptr("args")` on a null argument vector; in all remaining cases both
return `Ok` of the host-extracted integer. -/
theorem c8_integer_read_errors :
    (∀ env : EmacsEnv,
      elisp2native.int_value env .nullVal = .error (.Nullptr (ascii "val"))) ∧
    (∀ (env : EmacsEnv) (val : EmacsVal), val.is_null = false →
      env.extract_integer = none →
      elisp2native.int_value env val =
        .error (.CoreFnMissing (ascii "extract_integer"))) ∧
    (∀ (env : EmacsEnv) (index : Nat),
      elisp2native.integer env none index = .error (.Nullptr (ascii "args"))) ∧
    (∀ (env : EmacsEnv) (val : EmacsVal) (f : EmacsVal → Int),
      val.is_null = false → env.extract_integer = some f →
      elisp2native.int_value env val = .ok (f val)) ∧
    (∀ (env : EmacsEnv) (a : Nat → EmacsVal) (index : Nat) (f : EmacsVal → Int),
      (a index).is_null = false → env.extract_integer = some f →
      elisp2native.integer env (some a) index = .ok (f (a index))) := by
  refine ⟨fun env => rfl, ?_, fun env index => rfl, ?_, ?_⟩
  · intro env val hnull hmiss
    unfold elisp2native.int_value
    rw [if_neg (by simp [hnull]), hmiss]
  · intro env val f hnull hsome
    unfold elisp2native.int_value
    rw [if_neg (by simp [hnull]), hsome]
  · intro env a index f hnull hsome
    show elisp2native.int_value env (a index) = .ok (f (a index))
    unfold elisp2native.int_value
    rw [if_neg (by simp [hnull]), hsome]

theorem c8_integer_read_errors_witness :
    elisp2native.int_value faithfulEnvNoExtract (.intVal 5) =
      .error (.CoreFnMissing (ascii "extract_integer")) ∧
    elisp2native.integer faithfulEnv (some (fun _ => .intVal 7)) 0 = .ok 7 :=
  ⟨c8_integer_read_errors.2.1 faithfulEnvNoExtract (.intVal 5) rfl rfl,
   c8_integer_read_errors.2.2.2.2 faithfulEnv (fun _ => .intVal 7) 0 _ rfl rfl⟩

/-- C10: `pointer` reports `Nullptr` only for a null argument vector; when
the vector is non-null and `get_user_ptr` is present it returns `Ok` of
whatever pointer the host extracts — a null (0) extracted pointer
included — and `mut_ref` then turns that possibly-null pointer into a
"mutable reference" (here: the bare address) with no null check and no
error. -/
theorem c10_pointer_null_policy :
    (∀ (env : EmacsEnv) (index : Nat),
      elisp2native.pointer env none index = .error (.Nullptr (ascii "args"))) ∧
    (∀ (env : EmacsEnv) (a : Nat → EmacsVal) (index : Nat) (g : EmacsVal → Nat),
      env.get_user_ptr = some g →
      elisp2native.pointer env (some a) index = .ok (g (a index))) ∧
    (∀ (env : EmacsEnv) (a : Nat → EmacsVal) (index : Nat) (g : EmacsVal → Nat),
      env.get_user_ptr = some g → g (a index) = 0 →
      elisp2native.mut_ref env (some a) index = .ok 0) := by
  refine ⟨fun env index => rfl, ?_, ?_⟩
  · intro env a index g hg
    unfold elisp2native.pointer
    rw [hg]
  · intro env a index g hg h0
    unfold elisp2native.mut_ref elisp2native.pointer
    rw [hg]
    simp [Except.map, h0]

theorem c10_pointer_null_policy_witness :
    elisp2native.pointer faithfulEnv (some (fun _ => .userPtrVal 0)) 0 = .ok 0 ∧
    elisp2native.mut_ref faithfulEnv (some (fun _ => .userPtrVal 0)) 0 = .ok 0 :=
  ⟨c10_pointer_null_policy.2.1 faithfulEnv (fun _ => .userPtrVal 0) 0 _ rfl,
   c10_pointer_null_policy.2.2 faithfulEnv (fun _ => .userPtrVal 0) 0 _ rfl rfl⟩

/-- C7: invoking `destruct` with a null pointer is a no-op on the heap and
does not fault; for the non-null pointer produced by a `boxed` ownership
transfer, a single invocation frees exactly that allocation (it is fresh,
gets removed, and a second invocation on the now-dead pointer would be the
undefined-behavior case, not a silent double free). -/
theorem c7_destructor_contract :
    (∀ heap : List Nat, destruct 0 heap = some heap) ∧
    (∀ (α : Type) (v : α) (dtor : Nat) (h : Host),
      ∃ p, native2elisp.boxed faithfulEnv v dtor h =
          (.ok (.userPtrVal p), { h with heap := p :: h.heap }) ∧
        p ≠ 0 ∧ p ∉ h.heap ∧
        destruct p (p :: h.heap) = some h.heap ∧
        destruct p h.heap = none) := by
  constructor
  · intro heap; rfl
  · intro α v dtor h
    set p : Nat := h.heap.foldr max 0 + 1 with hp
    have hfresh : p ∉ h.heap := by
      intro hmem
      have := le_foldr_max h.heap p hmem
      omega
    refine ⟨p, rfl, by omega, hfresh, ?_, ?_⟩
    · unfold destruct
      rw [if_neg (by omega), if_pos (List.mem_cons_self p h.heap)]
      rw [List.erase_cons_head]
    · unfold destruct
      rw [if_neg (by omega), if_neg hfresh]

/-- C1: every function wrapped by the `emacs_subrs!` trampoline whose inner
body returns a `ConvErr` yields, under the faithful host, a host text value
whose content is exactly the tag `[name]` followed by a space,
`ConvErr::`, and the debug form of the error variant — and the ABI call
does not fault (the nul-free-diagnostic hypothesis is exactly the
"diagnostic string construction succeeds" proviso the claim permits as the
only fault source). -/
theorem c1_trampoline_error_to_text (addrOf : EmacsVal → Nat) (name : List Nat)
    (body : SubrBody) (nargs : Int) (args : Option (Nat → EmacsVal))
    (data : Option Nat) (h h1 : Host) (e : ConvErr)
    (hbody : body faithfulEnv nargs args data (tagOf name) h = (.error e, h1))
    (hnul : 0 ∉ diagMsg addrOf (tagOf name) e) :
    emacs_subr addrOf name body faithfulEnv nargs args data h =
      (.value (.strVal (diagMsg addrOf (tagOf name) e)), h1) := by
  simp only [emacs_subr, hbody]
  rw [nat2el_string_ok hnul]

theorem c1_trampoline_error_to_text_witness :
    emacs_subr (fun _ => 0) (ascii "do-it")
        (fun _ _ _ _ _ h => (.error (.Nullptr (ascii "args")), h))
        faithfulEnv 0 none none host0 =
      (.value (.strVal (ascii "[do-it] ConvErr::Nullptr(\"args\")")), host0) :=
  (c1_trampoline_error_to_text (fun _ => 0) (ascii "do-it")
      (fun _ _ _ _ _ h => (.error (.Nullptr (ascii "args")), h)) 0 none none
      host0 host0 (.Nullptr (ascii "args")) rfl (by decide)).trans (by decide)

/-- C4 (amended): `native2elisp::string` (make_text) fails
`FoundInteriorNulByte` at the position of the first nul byte for every
input containing a nul — trailing nuls included, since it runs
`CString::new` on the raw input without stripping; for host values,
`elisp2native::cstring` (read_nul_terminated_text) fails
`FoundInteriorNulByte` at the first-nul position when a non-trailing nul is
present, and on content whose only nuls are trailing it strips them and
preserves the remaining bytes exactly. -/
theorem c4_nul_handling :
    (∀ (bytes : List Nat) (p : Nat), firstNul bytes = some p →
      native2elisp.string faithfulEnv bytes =
        .error (.FoundInteriorNulByte p (some bytes))) ∧
    (∀ (pre rest : List Nat), 0 ∉ pre → (∃ x ∈ rest, x ≠ 0) →
      elisp2native.cstring faithfulEnv (.strVal (pre ++ 0 :: rest)) =
        .error (.FoundInteriorNulByte pre.length
          (some (pre ++ 0 :: elisp2native.strip_trailing_zero_bytes rest)))) ∧
    (∀ (front : List Nat) (k : Nat), 0 ∉ front →
      elisp2native.cstring faithfulEnv
        (.strVal (front ++ List.replicate k 0)) = .ok front) := by
  refine ⟨?_, ?_, ?_⟩
  · intro bytes p hfn
    unfold native2elisp.string cstringNew
    rw [hfn]
    rfl
  · intro pre rest hpre hex
    have hb : elisp2native.strip_trailing_zero_bytes ((pre ++ 0 :: rest) ++ [0])
        = pre ++ 0 :: elisp2native.strip_trailing_zero_bytes rest := by
      rw [show (pre ++ 0 :: rest) ++ [0] = (pre ++ [0]) ++ (rest ++ [0]) by simp]
      obtain ⟨x, hx, hxe⟩ := hex
      rw [strip_append_ex ⟨x, by simp [hx], hxe⟩]
      rw [show ([0] : List Nat) = List.replicate 1 0 from rfl,
        strip_append_replicate]
      simp
    simp only [elisp2native.cstring, string_bytes_faithful]
    rw [hb]
    unfold cstringNew
    rw [firstNul_append hpre]
    rfl
  · intro front k hfront
    have hrep : List.replicate k (0 : Nat) ++ [0] = List.replicate (k + 1) 0 :=
      (List.replicate_succ' k 0).symm
    have hb : elisp2native.strip_trailing_zero_bytes
        ((front ++ List.replicate k 0) ++ [0]) = front := by
      rw [List.append_assoc, hrep, strip_append_replicate, strip_of_no_nul hfront]
    simp only [elisp2native.cstring, string_bytes_faithful]
    rw [hb, cstringNew_ok hfront]

theorem c4_nul_handling_witness :
    native2elisp.string faithfulEnv [97, 0, 98] =
      .error (.FoundInteriorNulByte 1 (some [97, 0, 98])) ∧
    elisp2native.cstring faithfulEnv (.strVal [97, 0, 98, 0]) =
      .error (.FoundInteriorNulByte 1 (some [97, 0, 98])) ∧
    elisp2native.cstring faithfulEnv (.strVal [97, 98, 0, 0]) = .ok [97, 98] :=
  ⟨c4_nul_handling.1 [97, 0, 98] 1 (by decide),
   c4_nul_handling.2.1 [97] [98, 0] (by decide) ⟨98, by decide, by decide⟩,
   c4_nul_handling.2.2 [97, 98] 2 (by decide)⟩

theorem c4_make_text_counterexample :
    native2elisp.string faithfulEnv [97, 0] =
      .error (.FoundInteriorNulByte 1 (some [97, 0])) ∧
    native2elisp.string faithfulEnv [97, 0] ≠ .ok (.strVal [97]) := by
  refine ⟨by decide, by decide⟩

/-- C5 (code bug): the conversion from `FromBytesWithNulError` compares the
error's `{:?}` text against a literal wrapped in `Err(...)` that `Debug`
never produces, and its regex treats the parentheses of the expected text
as capture groups (and would parse capture 1, the whole group, not the
digits), so neither the equality test nor the regex can ever fire: both
underlying kinds land in the `Other` escape hatch, and the claimed
`FoundInteriorNulByte` / `NotNulTerminated` mappings are unreachable.
Evaluated here at the failing inputs `InteriorNul 3` and
`NotNulTerminated`. -/
theorem c5_fbwn_conversion_bug :
    ConvErr.fromFromBytesWithNulError (.InteriorNul 3) =
      .Other (fbwnDebug (.InteriorNul 3)) ∧
    ConvErr.fromFromBytesWithNulError .NotNulTerminated =
      .Other (fbwnDebug .NotNulTerminated) ∧
    ConvErr.fromFromBytesWithNulError (.InteriorNul 3) ≠
      .FoundInteriorNulByte 3 none ∧
    ConvErr.fromFromBytesWithNulError .NotNulTerminated ≠ .NotNulTerminated := by
  refine ⟨by decide, by decide, by decide, by decide⟩

/-- C6 (amended): `register` with an arity range whose fields are
`start`/`end` constructs the host function value with `min_arity = start`
but `max_arity = end + 1` (not `end`), binds it to the interned symbol via
`fset`, logs the registration message, and returns the symbol `t`. -/
theorem c6_register_arities (name doc : List Nat) (subr : Nat)
    (start end_ : Nat) (h : Host) (_hrange : start ≤ end_)
    (hname : 0 ∉ name) (hdoc : 0 ∉ doc) :
    register faithfulEnv name subr start end_ doc h =
      (.ok (.symVal (ascii "t")),
        { h with
            bindings :=
              (name, .funVal (start : Int) ((end_ : Int) + 1) (some subr) doc)
                :: h.bindings,
            messages := (ascii "Registered function " ++ name) :: h.messages }) := by
  have hmsg : 0 ∉ ascii "Registered function " ++ name := by
    simp only [List.mem_append, not_or]
    exact ⟨by decide, hname⟩
  unfold register
  rw [cstringNew_ok hdoc]
  simp only [function_faithful, symbol_ok hname, call_fset, message_ok hmsg,
    symbol_ok (show (0 : Nat) ∉ ascii "t" by decide)]

theorem c6_register_arities_witness :
    register faithfulEnv (ascii "f") 0 1 3 (ascii "d") host0 =
      (.ok (.symVal (ascii "t")),
        { host0 with
            bindings := [(ascii "f", .funVal 1 4 (some 0) (ascii "d"))],
            messages := [ascii "Registered function " ++ ascii "f"] }) :=
  c6_register_arities (ascii "f") (ascii "d") 0 1 3 host0 (by decide)
    (by decide) (by decide)

/-- C6 counterexample: at `min_arity = 1, max_arity = 3` (range fields
`start = 1`, `end = 3`) the function value actually constructed and bound
carries `max_arity = 4`, not the claimed `3`. -/
theorem c6_register_arity_counterexample :
    (register faithfulEnv (ascii "f") 0 1 3 (ascii "d") host0).2.bindings =
      [(ascii "f", EmacsVal.funVal 1 4 (some 0) (ascii "d"))] ∧
    EmacsVal.funVal 1 4 (some 0) (ascii "d") ≠
      EmacsVal.funVal 1 3 (some 0) (ascii "d") := by
  refine ⟨by decide, by decide⟩
